import Mathlib

/-!
Shallow embedding of the Activity Tracker core: the JSON-backed store
(`src/database/db_manager.py`) and the calendar-grid logic
(`src/gui/calendar_view.py`).  The persisted JSON document is modelled as a
`Doc` value; every store operation is a pure function `Doc → Doc × result`,
mirroring the read–modify–write cycle of the Python code.
-/

/-- A category record: `{"id": int, "name": str, "color": str}`. -/
structure Category where
  id : Int
  name : String
  color : String
deriving DecidableEq, Repr

/-- An activity record:
`{"id": int, "title": str, "category_id": int, "date": "YYYY-MM-DD",
  "duration": int, "notes": str}`. -/
structure Activity where
  id : Int
  title : String
  category_id : Int
  date : String
  duration : Int
  notes : String
deriving DecidableEq, Repr

/-- The persisted activities document: `{"categories": [...], "activities": [...]}`. -/
structure Doc where
  categories : List Category
  activities : List Activity
deriving DecidableEq, Repr

/-- The seeded initial document written by `_initialize_db` when the backing
file is absent. -/
def initialDoc : Doc :=
  ⟨[⟨1, "Sport", "#FF5733"⟩, ⟨2, "Lecture", "#33A8FF"⟩,
    ⟨3, "Méditation", "#B033FF"⟩, ⟨4, "Travail", "#33FF57"⟩], []⟩

/-- The id generation of `add_category` / `add_activity`:
`new_id = 1; if seq: new_id = max(x["id"] for x in seq) + 1`. -/
def newId (ids : List Int) : Int :=
  match ids with
  | [] => 1
  | x :: xs => xs.foldl max x + 1

/-- Model of `add_category(name, color)`: appends a fresh category and returns its id. -/
def add_category (name color : String) (s : Doc) : Doc × Int :=
  let new_id := newId (s.categories.map (fun c => c.id))
  (⟨s.categories ++ [⟨new_id, name, color⟩], s.activities⟩, new_id)

/-- Model of `delete_category(category_id)`: keeps the categories whose id differs,
returns `True`. -/
def delete_category (category_id : Int) (s : Doc) : Doc × Bool :=
  (⟨s.categories.filter (fun c => c.id != category_id), s.activities⟩, true)

/-- Model of `get_activities(start_date=None, end_date=None, category_id=None)`:
`if start_date:` / `if end_date:` are Python truthiness tests, so `None` and
`""` both skip the corresponding filter; `if category_id is not None:` applies
the category filter for every non-`None` value, `0` included. -/
def filterStart (start_date : Option String) (l : List Activity) : List Activity :=
  match start_date with
  | none => l
  | some sd => if sd = "" then l else l.filter (fun a => decide (sd ≤ a.date))

def filterEnd (end_date : Option String) (l : List Activity) : List Activity :=
  match end_date with
  | none => l
  | some ed => if ed = "" then l else l.filter (fun a => decide (a.date ≤ ed))

def filterCat (category_id : Option Int) (l : List Activity) : List Activity :=
  match category_id with
  | none => l
  | some c => l.filter (fun a => a.category_id == c)

def get_activities (start_date end_date : Option String) (category_id : Option Int)
    (s : Doc) : List Activity :=
  filterCat category_id (filterEnd end_date (filterStart start_date s.activities))

/-- Model of `add_activity(title, category_id, date, duration, notes="")`. -/
def add_activity (title : String) (category_id : Int) (date : String)
    (duration : Int) (notes : String) (s : Doc) : Doc × Int :=
  let new_id := newId (s.activities.map (fun a => a.id))
  (⟨s.categories,
    s.activities ++ [⟨new_id, title, category_id, date, duration, notes⟩]⟩, new_id)

/-- The in-place field overwrite performed by `update_activity` on the
matching record: title, category_id, duration and notes are replaced, id and
date are kept. -/
def updFields (title : String) (category_id duration : Int) (notes : String)
    (a : Activity) : Activity :=
  ⟨a.id, title, category_id, a.date, duration, notes⟩

/-- The `for ... if ... break` loop of `update_activity`: the first activity
whose id matches is overwritten, the rest of the list is untouched. -/
def updateFirst (activity_id : Int) (title : String) (category_id duration : Int)
    (notes : String) : List Activity → List Activity
  | [] => []
  | a :: rest =>
    if a.id = activity_id then updFields title category_id duration notes a :: rest
    else a :: updateFirst activity_id title category_id duration notes rest

/-- Model of `update_activity(activity_id, title, category_id, duration, notes="")`:
first-match in-place update, returns `True` whether or not a match existed. -/
def update_activity (activity_id : Int) (title : String) (category_id duration : Int)
    (notes : String) (s : Doc) : Doc × Bool :=
  (⟨s.categories, updateFirst activity_id title category_id duration notes s.activities⟩,
   true)

/-- Model of `delete_activity(activity_id)`: keeps the activities whose id differs,
returns `True`. -/
def delete_activity (activity_id : Int) (s : Doc) : Doc × Bool :=
  (⟨s.categories, s.activities.filter (fun a => a.id != activity_id)⟩, true)

/-- Both id-uniqueness invariants of the persisted document (spec §3). -/
def idsUnique (s : Doc) : Prop :=
  (s.categories.map (fun c => c.id)).Nodup ∧ (s.activities.map (fun a => a.id)).Nodup

instance : DecidablePred idsUnique := fun s => by unfold idsUnique; infer_instance

/-! ### Calendar navigation (`_prev_month` / `_next_month`) -/

/-- Model of `_prev_month`: `month -= 1; if month < 1: month = 12; year -= 1`. -/
def prev_month (year month : Int) : Int × Int :=
  let m := month - 1
  if m < 1 then (year - 1, 12) else (year, m)

/-- Model of `_next_month`: `month += 1; if month > 12: month = 1; year += 1`. -/
def next_month (year month : Int) : Int × Int :=
  let m := month + 1
  if m > 12 then (year + 1, 1) else (year, m)

/-! ### Activity indicators (`_add_activity_indicators`) -/

/-- The grouping dictionary `by_category`: its keys in insertion order are the
category ids of the day's activities, first occurrence first. -/
def groupKeys (acts : List Activity) : List Int :=
  acts.foldl
    (fun seen a => if a.category_id ∈ seen then seen else seen ++ [a.category_id])
    []

/-- The dictionary `{cat["id"]: cat for cat in get_categories()}`: for a
duplicated id the later entry overwrites the earlier one, hence the last
match wins. -/
def dictLast (cats : List Category) (cid : Int) : Option Category :=
  cats.reverse.find? (fun c => c.id == cid)

/-- The list of indicator colors packed for one day cell: one per grouped
category id that has a matching category, in key order. -/
def indicatorColors (s : Doc) (date_str : String) : List String :=
  let activities := get_activities (some date_str) (some date_str) none s
  let keys := groupKeys activities
  keys.filterMap (fun cid => (dictLast s.categories cid).map (fun c => c.color))

/-- A concrete document used to instantiate indicator aggregation: two
categories, two same-day activities in category 1, one in category 2, and
one referencing the nonexistent category 9. -/
def demoDoc : Doc :=
  ⟨[⟨1, "Sport", "#F00"⟩, ⟨2, "Lecture", "#0F0"⟩],
   [⟨1, "run", 1, "2024-03-01", 30, ""⟩, ⟨2, "swim", 1, "2024-03-01", 20, ""⟩,
    ⟨3, "read", 2, "2024-03-01", 15, ""⟩, ⟨4, "ghost", 9, "2024-03-01", 10, ""⟩]⟩

/-! ### Sequences of category operations, for the id-monotonicity claim -/

/-- One call against the category side of the store. -/
inductive CatOp where
  | add : String → String → CatOp
  | del : Int → CatOp
deriving DecidableEq, Repr

/-- Runs a sequence of `add_category` / `delete_category` calls and collects
the ids returned by the adds, in call order. -/
def runCats : Doc → List CatOp → Doc × List Int
  | s, [] => (s, [])
  | s, CatOp.add n c :: rest =>
    let p := add_category n c s
    let q := runCats p.1 rest
    (q.1, p.2 :: q.2)
  | s, CatOp.del cid :: rest => runCats (delete_category cid s).1 rest

/-- The maximal id of a sequence, computed the way `add_category` does
(`max` of the ids of a non-empty list). -/
def maxOf : List Int → Option Int
  | [] => none
  | x :: xs => some (xs.foldl max x)

/-- A run is tame when no delete targets the currently maximal category id. -/
def okRun : Doc → List CatOp → Bool
  | _, [] => true
  | s, CatOp.add n c :: rest => okRun (add_category n c s).1 rest
  | s, CatOp.del cid :: rest =>
    (match maxOf (s.categories.map (fun c => c.id)) with
     | none => true
     | some m => cid != m) && okRun (delete_category cid s).1 rest

/-! ### Lemmas about `max` folds and `newId` -/

lemma le_foldl_max (xs : List Int) : ∀ a b : Int, a ≤ b → a ≤ xs.foldl max b := by
  induction xs with
  | nil => intro a b h; simpa using h
  | cons y ys ih =>
    intro a b h
    simp only [List.foldl_cons]
    exact ih a (max b y) (le_trans h (le_max_left b y))

lemma mem_le_foldl_max (xs : List Int) : ∀ (x y : Int), y ∈ xs → y ≤ xs.foldl max x := by
  induction xs with
  | nil => intro x y h; simp at h
  | cons z zs ih =>
    intro x y h
    simp only [List.foldl_cons]
    rcases List.mem_cons.mp h with rfl | hz
    · exact le_foldl_max zs y (max x y) (le_max_right x y)
    · exact ih (max x z) y hz

lemma foldl_max_mem (xs : List Int) : ∀ x : Int, xs.foldl max x ∈ x :: xs := by
  induction xs with
  | nil => intro x; simp
  | cons y ys ih =>
    intro x
    simp only [List.foldl_cons]
    rcases List.mem_cons.mp (ih (max x y)) with h | h
    · rcases max_choice x y with hm | hm <;> rw [h, hm] <;> simp
    · simp [h]

lemma newId_gt (ids : List Int) : ∀ i ∈ ids, i < newId ids := by
  intro i hi
  match ids, hi with
  | x :: xs, hi =>
    show i < xs.foldl max x + 1
    rcases List.mem_cons.mp hi with rfl | h
    · exact lt_of_le_of_lt (le_foldl_max xs i i le_rfl) (lt_add_one _)
    · exact lt_of_le_of_lt (mem_le_foldl_max xs x i h) (lt_add_one _)

lemma maxOf_spec (ids : List Int) (m : Int) (h : maxOf ids = some m) :
    m ∈ ids ∧ ∀ i ∈ ids, i ≤ m := by
  match ids, h with
  | x :: xs, h =>
    have hm : m = xs.foldl max x := by
      simpa [maxOf] using h.symm
    subst hm
    refine ⟨foldl_max_mem xs x, ?_⟩
    intro i hi
    rcases List.mem_cons.mp hi with rfl | hxs
    · exact le_foldl_max xs i i le_rfl
    · exact mem_le_foldl_max xs x i hxs

lemma maxOf_unique (ids : List Int) (m : Int) (hmem : m ∈ ids)
    (hub : ∀ i ∈ ids, i ≤ m) : maxOf ids = some m := by
  match ids, hmem with
  | x :: xs, hmem =>
    obtain ⟨hμmem, hμub⟩ := maxOf_spec (x :: xs) (xs.foldl max x) rfl
    have h1 : xs.foldl max x ≤ m := hub _ hμmem
    have h2 : m ≤ xs.foldl max x := hμub m hmem
    simp [maxOf, le_antisymm h1 h2]

lemma maxOf_append_newId (ids : List Int) :
    maxOf (ids ++ [newId ids]) = some (newId ids) := by
  match ids with
  | [] => rfl
  | x :: xs =>
    show maxOf (x :: (xs ++ [newId (x :: xs)])) = some (newId (x :: xs))
    simp only [maxOf, List.foldl_append, List.foldl_cons, List.foldl_nil]
    have : xs.foldl max x ≤ newId (x :: xs) := by
      show xs.foldl max x ≤ xs.foldl max x + 1
      exact le_of_lt (lt_add_one _)
    simp [max_eq_right this]

/-- After `add_category`, the maximal category id is exactly the returned id. -/
lemma maxOf_after_add (s : Doc) (n c : String) :
    maxOf (((add_category n c s).1.categories).map (fun cat => cat.id))
      = some ((add_category n c s).2) := by
  simp only [add_category, List.map_append, List.map_cons, List.map_nil]
  exact maxOf_append_newId _

/-- Deleting a non-maximal category id leaves the maximal category id unchanged. -/
lemma maxOf_after_del (s : Doc) (cid m : Int)
    (hm : maxOf (s.categories.map (fun c => c.id)) = some m) (hne : cid ≠ m) :
    maxOf (((delete_category cid s).1.categories).map (fun c => c.id)) = some m := by
  obtain ⟨hmem, hub⟩ := maxOf_spec _ _ hm
  obtain ⟨cat, hcat, hcid⟩ := List.mem_map.mp hmem
  apply maxOf_unique
  · refine List.mem_map.mpr ⟨cat, ?_, hcid⟩
    simp only [delete_category, List.mem_filter]
    exact ⟨hcat, by simp only [hcid, bne_iff_ne, ne_eq]; exact fun h => hne h.symm⟩
  · intro i hi
    apply hub
    obtain ⟨cat', hcat', hcid'⟩ := List.mem_map.mp hi
    exact List.mem_map.mpr ⟨cat', (List.mem_filter.mp hcat').1, hcid'⟩

/-- In a tame run, every id returned by an `add_category` call strictly
exceeds the maximal category id present when the run started. -/
lemma runCats_ids_gt (ops : List CatOp) : ∀ s : Doc, okRun s ops = true →
    ∀ i ∈ (runCats s ops).2, ∀ m,
      maxOf (s.categories.map (fun c => c.id)) = some m → m < i := by
  induction ops with
  | nil => intro s _ i hi; simp [runCats] at hi
  | cons op rest ih =>
    intro s hok i hi m hm
    cases op with
    | add n c =>
      have hok' : okRun (add_category n c s).1 rest = true := by
        simpa [okRun] using hok
      have hlt : m < (add_category n c s).2 := by
        have : (add_category n c s).2 = newId (s.categories.map (fun c => c.id)) := rfl
        rw [this]
        exact newId_gt _ m (maxOf_spec _ _ hm).1
      rcases List.mem_cons.mp (by simpa [runCats] using hi) with rfl | htail
      · exact hlt
      · exact lt_trans hlt
          (ih (add_category n c s).1 hok' i htail _ (maxOf_after_add s n c))
    | del cid =>
      have hok2 : ((match maxOf (s.categories.map (fun c => c.id)) with
          | none => true
          | some m => cid != m) && okRun (delete_category cid s).1 rest) = true := hok
      rw [Bool.and_eq_true] at hok2
      have hne : cid ≠ m := by
        have := hok2.1
        rw [hm] at this
        simpa using this
      exact ih (delete_category cid s).1 hok2.2 i (by simpa [runCats] using hi) m
        (maxOf_after_del s cid m hm hne)

/-- In a tame run the collected add ids form a strictly increasing chain. -/
lemma runCats_chain (ops : List CatOp) : ∀ s : Doc, okRun s ops = true →
    List.Chain' (· < ·) (runCats s ops).2 := by
  induction ops with
  | nil => intro s _; simp [runCats]
  | cons op rest ih =>
    intro s hok
    cases op with
    | add n c =>
      have hok' : okRun (add_category n c s).1 rest = true := by
        simpa [okRun] using hok
      have hids : (runCats s (CatOp.add n c :: rest)).2
          = (add_category n c s).2 :: (runCats (add_category n c s).1 rest).2 := rfl
      rw [hids, List.chain'_cons']
      refine ⟨?_, ih _ hok'⟩
      intro b hb
      exact runCats_ids_gt rest (add_category n c s).1 hok' b
        (List.mem_of_mem_head? hb) _ (maxOf_after_add s n c)
    | del cid =>
      have hok2 : ((match maxOf (s.categories.map (fun c => c.id)) with
          | none => true
          | some m => cid != m) && okRun (delete_category cid s).1 rest) = true := hok
      rw [Bool.and_eq_true] at hok2
      have hids : (runCats s (CatOp.del cid :: rest)).2
          = (runCats (delete_category cid s).1 rest).2 := rfl
      rw [hids]
      exact ih _ hok2.2

/-- C1 counterexample: starting from the empty document, the run
add A (id 1), add B (id 2), delete B, add C returns ids `[1, 2, 2]` — the
delete removed the category holding the maximal id, so `max + 1` hands the
id 2 out a second time.  The returned ids are neither strictly increasing
nor unique, refuting the claim as stated. -/
theorem addCategory_id_reuse_after_max_delete :
    (runCats ⟨[], []⟩
      [CatOp.add "A" "#111", CatOp.add "B" "#222",
       CatOp.del 2, CatOp.add "C" "#333"]).2 = [1, 2, 2]
    ∧ ¬ List.Chain' (· < ·) (runCats ⟨[], []⟩
      [CatOp.add "A" "#111", CatOp.add "B" "#222",
       CatOp.del 2, CatOp.add "C" "#333"]).2
    ∧ ¬ ((runCats ⟨[], []⟩
      [CatOp.add "A" "#111", CatOp.add "B" "#222",
       CatOp.del 2, CatOp.add "C" "#333"]).2).Nodup := by
  have h122 : (runCats ⟨[], []⟩
      [CatOp.add "A" "#111", CatOp.add "B" "#222",
       CatOp.del 2, CatOp.add "C" "#333"]).2 = [1, 2, 2] := by decide
  refine ⟨h122, ?_, ?_⟩
  · rw [h122]
    intro h
    exact absurd (List.chain'_cons.mp ((List.chain'_cons.mp h).2)).1 (by decide)
  · rw [h122]
    decide

/-- C1 (amended): across any sequence of `add_category` / `delete_category`
calls from any starting state, the ids returned by the successive adds are
strictly increasing (hence unique), provided no intervening delete removes
the category holding the currently maximal id. -/
theorem addCategory_ids_strictly_increasing (s : Doc) (ops : List CatOp)
    (h : okRun s ops = true) :
    List.Chain' (· < ·) (runCats s ops).2 ∧ ((runCats s ops).2).Nodup := by
  have hchain := runCats_chain ops s h
  refine ⟨hchain, ?_⟩
  exact (List.chain'_iff_pairwise.mp hchain).imp ne_of_lt

/-- Witness for the amended C1 theorem: the spec's own example run
(add A, add B, delete A, add C) is tame and yields ids `[1, 2, 3]`. -/
theorem addCategory_ids_strictly_increasing_witness :
    okRun ⟨[], []⟩
      [CatOp.add "A" "#111", CatOp.add "B" "#222",
       CatOp.del 1, CatOp.add "C" "#333"] = true
    ∧ (List.Chain' (· < ·) (runCats ⟨[], []⟩
        [CatOp.add "A" "#111", CatOp.add "B" "#222",
         CatOp.del 1, CatOp.add "C" "#333"]).2
      ∧ ((runCats ⟨[], []⟩
        [CatOp.add "A" "#111", CatOp.add "B" "#222",
         CatOp.del 1, CatOp.add "C" "#333"]).2).Nodup) :=
  ⟨by decide, addCategory_ids_strictly_increasing _ _ (by decide)⟩

/-! ### Filtering lemmas for `get_activities` -/

lemma filter_filter_and {α : Type} (p q : α → Bool) (l : List α) :
    (l.filter p).filter q = l.filter (fun a => p a && q a) := by
  induction l with
  | nil => rfl
  | cons a l ih =>
    by_cases hp : p a <;> by_cases hq : q a <;>
      simp [List.filter_cons, hp, hq, ih]

lemma date_range_eq_bool (d x : String) :
    (decide (d ≤ x) && decide (x ≤ d)) = (x == d) := by
  rw [Bool.eq_iff_iff]
  simp only [Bool.and_eq_true, decide_eq_true_eq, beq_iff_eq]
  constructor
  · rintro ⟨h1, h2⟩
    exact le_antisymm h2 h1
  · rintro rfl
    exact ⟨le_rfl, le_rfl⟩

lemma getActivities_filter (s : Doc) (sd ed : String) (copt : Option Int)
    (h1 : sd ≠ "") (h2 : ed ≠ "") :
    get_activities (some sd) (some ed) copt s
      = s.activities.filter (fun a =>
          decide (sd ≤ a.date) && decide (a.date ≤ ed)
            && (match copt with | none => true | some c => a.category_id == c)) := by
  cases copt with
  | none =>
    simp only [get_activities, filterStart, filterEnd, filterCat, if_neg h1, if_neg h2]
    rw [filter_filter_and]
    exact List.filter_congr (fun a _ => by simp)
  | some c =>
    simp only [get_activities, filterStart, filterEnd, filterCat, if_neg h1, if_neg h2]
    rw [filter_filter_and, filter_filter_and]
    exact List.filter_congr (fun a _ => by rw [Bool.and_assoc])

lemma getActivities_single_day (s : Doc) (d : String) (hd : d ≠ "") :
    get_activities (some d) (some d) none s
      = s.activities.filter (fun a => a.date == d) := by
  rw [getActivities_filter s d d none hd hd]
  exact List.filter_congr (fun a _ => by rw [Bool.and_true, date_range_eq_bool])

/-- C2: with non-empty date bounds, `get_activities` returns exactly the
stored activities inside the inclusive lexicographic range that also match
the optional category filter, conjunctively and in stored order (a `filter`
of the stored sequence); in particular equal bounds select exactly the
activities of that single day. -/
theorem getActivities_range_spec (s : Doc) (sd ed : String) (copt : Option Int)
    (h1 : sd ≠ "") (h2 : ed ≠ "") :
    (get_activities (some sd) (some ed) copt s
      = s.activities.filter (fun a =>
          decide (sd ≤ a.date) && decide (a.date ≤ ed)
            && (match copt with | none => true | some c => a.category_id == c)))
    ∧ ∀ d : String, d ≠ "" →
        get_activities (some d) (some d) none s
          = s.activities.filter (fun a => a.date == d) :=
  ⟨getActivities_filter s sd ed copt h1 h2,
   fun d hd => getActivities_single_day s d hd⟩

/-- Witness for C2: the spec's §8 fixture — five activities dated
2025-01-05/10/15/20/25, range [2025-01-10, 2025-01-20] keeps the middle
three. -/
theorem getActivities_range_spec_witness :
    ("2025-01-10" : String) ≠ ""
    ∧ ("2025-01-20" : String) ≠ ""
    ∧ ((get_activities (some "2025-01-10") (some "2025-01-20") none
        ⟨[], [⟨1, "a", 1, "2025-01-05", 30, ""⟩, ⟨2, "b", 1, "2025-01-10", 30, ""⟩,
              ⟨3, "c", 1, "2025-01-15", 30, ""⟩, ⟨4, "d", 1, "2025-01-20", 30, ""⟩,
              ⟨5, "e", 1, "2025-01-25", 30, ""⟩]⟩
      = ([⟨1, "a", 1, "2025-01-05", 30, ""⟩, ⟨2, "b", 1, "2025-01-10", 30, ""⟩,
          ⟨3, "c", 1, "2025-01-15", 30, ""⟩, ⟨4, "d", 1, "2025-01-20", 30, ""⟩,
          ⟨5, "e", 1, "2025-01-25", 30, ""⟩] : List Activity).filter (fun a =>
            decide (("2025-01-10" : String) ≤ a.date)
              && decide (a.date ≤ ("2025-01-20" : String))
              && (match (none : Option Int) with
                  | none => true
                  | some c => a.category_id == c))))
    ∧ ∀ d : String, d ≠ "" →
        get_activities (some d) (some d) none
          ⟨[], [⟨1, "a", 1, "2025-01-05", 30, ""⟩, ⟨2, "b", 1, "2025-01-10", 30, ""⟩,
                ⟨3, "c", 1, "2025-01-15", 30, ""⟩, ⟨4, "d", 1, "2025-01-20", 30, ""⟩,
                ⟨5, "e", 1, "2025-01-25", 30, ""⟩]⟩
          = ([⟨1, "a", 1, "2025-01-05", 30, ""⟩, ⟨2, "b", 1, "2025-01-10", 30, ""⟩,
              ⟨3, "c", 1, "2025-01-15", 30, ""⟩, ⟨4, "d", 1, "2025-01-20", 30, ""⟩,
              ⟨5, "e", 1, "2025-01-25", 30, ""⟩] : List Activity).filter
              (fun a => a.date == d) :=
  ⟨by decide, by decide,
   (getActivities_range_spec _ "2025-01-10" "2025-01-20" none
      (by decide) (by decide)).1,
   (getActivities_range_spec _ "2025-01-10" "2025-01-20" none
      (by decide) (by decide)).2⟩

/-- C10: an empty-string date bound is falsy in Python, so it disables the
corresponding filter entirely (no lower / upper bound is applied), while for
the category filter only `None` disables it — `category_id = 0` still
restricts to activities whose category id is `0`. -/
theorem getActivities_empty_string_disables (s : Doc) :
    get_activities (some "") none none s = s.activities
    ∧ get_activities none (some "") none s = s.activities
    ∧ get_activities (some "") (some "") none s = s.activities
    ∧ get_activities none none none s = s.activities
    ∧ get_activities none none (some 0) s
        = s.activities.filter (fun a => a.category_id == 0) := by
  refine ⟨?_, ?_, ?_, rfl, rfl⟩ <;> simp [get_activities, filterStart, filterEnd, filterCat]

/-! ### Lemmas about `updateFirst` and id preservation -/

lemma map_eq_self {α : Type} (f : α → α) :
    ∀ l : List α, (∀ a ∈ l, f a = a) → l.map f = l := by
  intro l h
  induction l with
  | nil => rfl
  | cons a t ih =>
    simp only [List.map_cons, h a (List.mem_cons_self a t)]
    rw [ih (fun b hb => h b (List.mem_cons_of_mem a hb))]

lemma updateFirst_map_id (aid : Int) (t : String) (c dur : Int) (nt : String) :
    ∀ l : List Activity,
      (updateFirst aid t c dur nt l).map (fun a => a.id) = l.map (fun a => a.id) := by
  intro l
  induction l with
  | nil => rfl
  | cons a rest ih =>
    by_cases ha : a.id = aid <;> simp [updateFirst, ha, updFields, ih]

lemma updateFirst_of_absent (aid : Int) (t : String) (c dur : Int) (nt : String) :
    ∀ l : List Activity, (∀ a ∈ l, a.id ≠ aid) → updateFirst aid t c dur nt l = l := by
  intro l h
  induction l with
  | nil => rfl
  | cons a rest ih =>
    rw [updateFirst, if_neg (h a (List.mem_cons_self a rest)),
      ih (fun b hb => h b (List.mem_cons_of_mem a hb))]

lemma updateFirst_eq_map (aid : Int) (t : String) (c dur : Int) (nt : String) :
    ∀ l : List Activity, (l.map (fun a => a.id)).Nodup →
      updateFirst aid t c dur nt l
        = l.map (fun a => if a.id = aid then updFields t c dur nt a else a) := by
  intro l
  induction l with
  | nil => intro _; rfl
  | cons a rest ih =>
    intro hnd
    rw [List.map_cons, List.nodup_cons] at hnd
    by_cases ha : a.id = aid
    · rw [updateFirst, if_pos ha, List.map_cons, if_pos ha]
      congr 1
      refine (map_eq_self _ rest (fun b hb => ?_)).symm
      rw [if_neg]
      intro hb'
      apply hnd.1
      rw [ha, ← hb']
      exact List.mem_map.mpr ⟨b, hb, rfl⟩
    · rw [updateFirst, if_neg ha, List.map_cons, if_neg ha]
      congr 1
      exact ih hnd.2

/-- C3: every store operation preserves the uniqueness of category ids and of
activity ids, and the seeded initial document satisfies it. -/
theorem store_ops_preserve_unique_ids (s : Doc) (h : idsUnique s)
    (nm col t date nt : String) (cid aid c dur : Int) :
    idsUnique initialDoc
    ∧ idsUnique (add_category nm col s).1
    ∧ idsUnique (delete_category cid s).1
    ∧ idsUnique (add_activity t c date dur nt s).1
    ∧ idsUnique (update_activity aid t c dur nt s).1
    ∧ idsUnique (delete_activity aid s).1 := by
  obtain ⟨hc, ha⟩ := h
  refine ⟨by decide, ⟨?_, ha⟩, ⟨?_, ha⟩, ⟨hc, ?_⟩, ⟨hc, ?_⟩, ⟨hc, ?_⟩⟩
  · have hnotmem : newId (s.categories.map (fun c => c.id))
        ∉ s.categories.map (fun c => c.id) :=
      fun hm => lt_irrefl _ (newId_gt _ _ hm)
    simp only [add_category, List.map_append, List.map_cons, List.map_nil]
    simp [List.nodup_append, hc, hnotmem]
  · exact List.Nodup.sublist (List.Sublist.map _ (List.filter_sublist _)) hc
  · have hnotmem : newId (s.activities.map (fun a => a.id))
        ∉ s.activities.map (fun a => a.id) :=
      fun hm => lt_irrefl _ (newId_gt _ _ hm)
    simp only [add_activity, List.map_append, List.map_cons, List.map_nil]
    simp [List.nodup_append, ha, hnotmem]
  · rw [show (update_activity aid t c dur nt s).1.activities
        = updateFirst aid t c dur nt s.activities from rfl, updateFirst_map_id]
    exact ha
  · exact List.Nodup.sublist (List.Sublist.map _ (List.filter_sublist _)) ha

/-- Witness for C3 at a concrete two-category, one-activity document. -/
theorem store_ops_preserve_unique_ids_witness :
    idsUnique ⟨[⟨1, "Sport", "#FF5733"⟩, ⟨2, "Lecture", "#33A8FF"⟩],
               [⟨1, "run", 1, "2024-03-01", 30, ""⟩]⟩
    ∧ (idsUnique initialDoc
      ∧ idsUnique (add_category "X" "#000"
          ⟨[⟨1, "Sport", "#FF5733"⟩, ⟨2, "Lecture", "#33A8FF"⟩],
           [⟨1, "run", 1, "2024-03-01", 30, ""⟩]⟩).1
      ∧ idsUnique (delete_category 1
          ⟨[⟨1, "Sport", "#FF5733"⟩, ⟨2, "Lecture", "#33A8FF"⟩],
           [⟨1, "run", 1, "2024-03-01", 30, ""⟩]⟩).1
      ∧ idsUnique (add_activity "t" 2 "2024-03-02" 15 ""
          ⟨[⟨1, "Sport", "#FF5733"⟩, ⟨2, "Lecture", "#33A8FF"⟩],
           [⟨1, "run", 1, "2024-03-01", 30, ""⟩]⟩).1
      ∧ idsUnique (update_activity 1 "t" 2 15 ""
          ⟨[⟨1, "Sport", "#FF5733"⟩, ⟨2, "Lecture", "#33A8FF"⟩],
           [⟨1, "run", 1, "2024-03-01", 30, ""⟩]⟩).1
      ∧ idsUnique (delete_activity 1
          ⟨[⟨1, "Sport", "#FF5733"⟩, ⟨2, "Lecture", "#33A8FF"⟩],
           [⟨1, "run", 1, "2024-03-01", 30, ""⟩]⟩).1) :=
  ⟨by decide,
   store_ops_preserve_unique_ids _ (by decide) "X" "#000" "t" "2024-03-02" "" 1 1 2 15⟩

/-- C4: `update_activity`, `delete_activity` and `delete_category` on an id
absent from the respective sequence leave the whole document unchanged and
return success (`True`). -/
theorem absent_id_ops_are_noops (s : Doc) (aid cid c dur : Int) (t nt : String)
    (h1 : ∀ a ∈ s.activities, a.id ≠ aid)
    (h2 : ∀ cat ∈ s.categories, cat.id ≠ cid) :
    update_activity aid t c dur nt s = (s, true)
    ∧ delete_activity aid s = (s, true)
    ∧ delete_category cid s = (s, true) := by
  refine ⟨?_, ?_, ?_⟩
  · rw [update_activity, updateFirst_of_absent aid t c dur nt s.activities h1]
  · rw [delete_activity, List.filter_eq_self.mpr (fun a ha => by simp [h1 a ha])]
  · rw [delete_category, List.filter_eq_self.mpr (fun cat hc => by simp [h2 cat hc])]

/-- Witness for C4 at a concrete document and ids 2 / 9 which are absent. -/
theorem absent_id_ops_are_noops_witness :
    (∀ a ∈ (⟨[⟨1, "Sport", "#FF5733"⟩], [⟨1, "run", 1, "2024-03-01", 30, ""⟩]⟩ :
        Doc).activities, a.id ≠ 2)
    ∧ (∀ cat ∈ (⟨[⟨1, "Sport", "#FF5733"⟩], [⟨1, "run", 1, "2024-03-01", 30, ""⟩]⟩ :
        Doc).categories, cat.id ≠ 9)
    ∧ (update_activity 2 "t" 1 5 ""
        ⟨[⟨1, "Sport", "#FF5733"⟩], [⟨1, "run", 1, "2024-03-01", 30, ""⟩]⟩
        = (⟨[⟨1, "Sport", "#FF5733"⟩], [⟨1, "run", 1, "2024-03-01", 30, ""⟩]⟩, true)
      ∧ delete_activity 2
          ⟨[⟨1, "Sport", "#FF5733"⟩], [⟨1, "run", 1, "2024-03-01", 30, ""⟩]⟩
          = (⟨[⟨1, "Sport", "#FF5733"⟩], [⟨1, "run", 1, "2024-03-01", 30, ""⟩]⟩, true)
      ∧ delete_category 9
          ⟨[⟨1, "Sport", "#FF5733"⟩], [⟨1, "run", 1, "2024-03-01", 30, ""⟩]⟩
          = (⟨[⟨1, "Sport", "#FF5733"⟩], [⟨1, "run", 1, "2024-03-01", 30, ""⟩]⟩, true)) :=
  ⟨by decide, by decide,
   absent_id_ops_are_noops _ 2 9 1 5 "t" "" (by decide) (by decide)⟩

/-- C5: when an activity with the given id is present (and ids are unique,
the documented invariant), `update_activity` overwrites exactly the title,
category_id, duration and notes of that activity — its id and date are kept
— and every other activity and all categories are unchanged. -/
theorem updateActivity_overwrites_only_mutable_fields (s : Doc)
    (aid c dur : Int) (t nt : String)
    (hnd : (s.activities.map (fun a => a.id)).Nodup)
    (_hmem : ∃ a ∈ s.activities, a.id = aid) :
    (update_activity aid t c dur nt s).1.categories = s.categories
    ∧ (update_activity aid t c dur nt s).1.activities
        = s.activities.map (fun a =>
            if a.id = aid then ⟨a.id, t, c, a.date, dur, nt⟩ else a) := by
  refine ⟨rfl, ?_⟩
  rw [show (update_activity aid t c dur nt s).1.activities
      = updateFirst aid t c dur nt s.activities from rfl]
  exact updateFirst_eq_map aid t c dur nt s.activities hnd

/-- Witness for C5: updating activity 1 in a two-activity document rewrites
its mutable fields, keeps its date, and leaves activity 2 alone. -/
theorem updateActivity_overwrites_only_mutable_fields_witness :
    ((([⟨1, "run", 1, "2024-03-01", 30, "old"⟩, ⟨2, "read", 2, "2024-03-02", 60, ""⟩] :
        List Activity).map (fun a => a.id)).Nodup
    ∧ (∃ a ∈ ([⟨1, "run", 1, "2024-03-01", 30, "old"⟩,
               ⟨2, "read", 2, "2024-03-02", 60, ""⟩] : List Activity), a.id = 1))
    ∧ ((update_activity 1 "swim" 3 45 "new"
        ⟨[], [⟨1, "run", 1, "2024-03-01", 30, "old"⟩,
              ⟨2, "read", 2, "2024-03-02", 60, ""⟩]⟩).1.categories
        = (⟨[], [⟨1, "run", 1, "2024-03-01", 30, "old"⟩,
                 ⟨2, "read", 2, "2024-03-02", 60, ""⟩]⟩ : Doc).categories
      ∧ (update_activity 1 "swim" 3 45 "new"
          ⟨[], [⟨1, "run", 1, "2024-03-01", 30, "old"⟩,
                ⟨2, "read", 2, "2024-03-02", 60, ""⟩]⟩).1.activities
        = ([⟨1, "run", 1, "2024-03-01", 30, "old"⟩,
            ⟨2, "read", 2, "2024-03-02", 60, ""⟩] : List Activity).map (fun a =>
              if a.id = 1 then ⟨a.id, "swim", 3, a.date, 45, "new"⟩ else a)) :=
  ⟨⟨by decide, by decide⟩,
   updateActivity_overwrites_only_mutable_fields _ 1 3 45 "swim" "new"
     (by decide) (by decide)⟩

/-! ### Month navigation, deletion semantics -/

/-- C7: previous-month navigation borrows across January (year 1 maps to
December of the previous year) and otherwise decrements the month;
next-month navigation carries across December and otherwise increments the
month; both are pure functions of the (year, month) pair. -/
theorem month_navigation_spec (y m : Int) (h1 : 1 ≤ m) (h2 : m ≤ 12) :
    prev_month y m = (if m = 1 then (y - 1, 12) else (y, m - 1))
    ∧ next_month y m = (if m = 12 then (y + 1, 1) else (y, m + 1)) := by
  constructor
  · rw [prev_month]
    by_cases hm : m = 1
    · rw [if_pos (by omega : m - 1 < 1), if_pos hm]
    · rw [if_neg (by omega : ¬ m - 1 < 1), if_neg hm]
  · rw [next_month]
    by_cases hm : m = 12
    · rw [if_pos (by omega : m + 1 > 12), if_pos hm]
    · rw [if_neg (by omega : ¬ m + 1 > 12), if_neg hm]

/-- Witness for C7 at the January / December boundary month 1 (and the
carry case is exercised through the `if` on month 12 below). -/
theorem month_navigation_spec_witness :
    ((1 : Int) ≤ 1 ∧ (1 : Int) ≤ 12
      ∧ (prev_month 2024 1 = (if (1 : Int) = 1 then (2024 - 1, 12) else (2024, 1 - 1))
        ∧ next_month 2024 1 = (if (1 : Int) = 12 then (2024 + 1, 1) else (2024, 1 + 1))))
    ∧ ((1 : Int) ≤ 12 ∧ (12 : Int) ≤ 12
      ∧ (prev_month 2024 12 = (if (12 : Int) = 1 then (2024 - 1, 12) else (2024, 12 - 1))
        ∧ next_month 2024 12
            = (if (12 : Int) = 12 then (2024 + 1, 1) else (2024, 12 + 1)))) :=
  ⟨⟨by decide, by decide, month_navigation_spec 2024 1 (by decide) (by decide)⟩,
   ⟨by decide, by decide, month_navigation_spec 2024 12 (by decide) (by decide)⟩⟩

lemma filterStart_subset (sd : Option String) (l : List Activity) :
    ∀ a ∈ filterStart sd l, a ∈ l := by
  intro a ha
  cases sd with
  | none => exact ha
  | some v =>
    rw [filterStart] at ha
    split at ha
    · exact ha
    · exact (List.mem_filter.mp ha).1

lemma filterEnd_subset (ed : Option String) (l : List Activity) :
    ∀ a ∈ filterEnd ed l, a ∈ l := by
  intro a ha
  cases ed with
  | none => exact ha
  | some v =>
    rw [filterEnd] at ha
    split at ha
    · exact ha
    · exact (List.mem_filter.mp ha).1

lemma filterCat_subset (copt : Option Int) (l : List Activity) :
    ∀ a ∈ filterCat copt l, a ∈ l := by
  intro a ha
  cases copt with
  | none => exact ha
  | some c => exact (List.mem_filter.mp ha).1

lemma getActivities_subset (sd ed : Option String) (copt : Option Int) (s : Doc) :
    ∀ a ∈ get_activities sd ed copt s, a ∈ s.activities := by
  intro a ha
  exact filterStart_subset sd _ a
    (filterEnd_subset ed _ a (filterCat_subset copt _ a ha))

/-- C8: after `delete_activity(id)` no activity with that id survives into
any `get_activities` result, and a second `delete_activity(id)` call leaves
the document unchanged and still returns `True`. -/
theorem deleteActivity_expunges_and_idempotent (s : Doc) (aid : Int)
    (sd ed : Option String) (copt : Option Int) :
    ((get_activities sd ed copt (delete_activity aid s).1).all
        (fun a => a.id != aid)) = true
    ∧ delete_activity aid (delete_activity aid s).1
        = ((delete_activity aid s).1, true) := by
  constructor
  · rw [List.all_eq_true]
    intro a ha
    have hmem : a ∈ (delete_activity aid s).1.activities :=
      getActivities_subset sd ed copt _ a ha
    exact (List.mem_filter.mp hmem).2
  · have hx : ((delete_activity aid s).1.activities).filter (fun a => a.id != aid)
        = (delete_activity aid s).1.activities :=
      List.filter_eq_self.mpr (fun a ha => (List.mem_filter.mp ha).2)
    show (⟨(delete_activity aid s).1.categories,
           ((delete_activity aid s).1.activities).filter (fun a => a.id != aid)⟩, true)
        = ((delete_activity aid s).1, true)
    rw [hx]

/-- C9: `delete_category(id)` keeps exactly the categories whose id differs
from the target (so every matching category is removed and nothing else),
reports success unconditionally, and leaves the activities sequence
untouched — no referencing activity is checked or removed. -/
theorem deleteCategory_frame_spec (s : Doc) (cid : Int) :
    (delete_category cid s).2 = true
    ∧ (delete_category cid s).1.activities = s.activities
    ∧ (∀ c : Category,
        c ∈ (delete_category cid s).1.categories ↔ (c ∈ s.categories ∧ c.id ≠ cid)) := by
  refine ⟨rfl, rfl, fun c => ?_⟩
  rw [show (delete_category cid s).1.categories
      = s.categories.filter (fun c => c.id != cid) from rfl, List.mem_filter]
  simp

/-! ### Indicator aggregation lemmas -/

lemma groupKeys_step_nodup (seen : List Int) (a : Activity) (h : seen.Nodup) :
    (if a.category_id ∈ seen then seen else seen ++ [a.category_id]).Nodup := by
  by_cases hm : a.category_id ∈ seen
  · rw [if_pos hm]
    exact h
  · rw [if_neg hm]
    simp [List.nodup_append, h, hm]

lemma groupKeys_aux_nodup (acts : List Activity) : ∀ seen : List Int, seen.Nodup →
    (acts.foldl
      (fun seen a => if a.category_id ∈ seen then seen else seen ++ [a.category_id])
      seen).Nodup := by
  induction acts with
  | nil => intro seen h; exact h
  | cons a l ih =>
    intro seen h
    rw [List.foldl_cons]
    exact ih _ (groupKeys_step_nodup seen a h)

lemma groupKeys_aux_mem (acts : List Activity) : ∀ (seen : List Int) (x : Int),
    x ∈ acts.foldl
      (fun seen a => if a.category_id ∈ seen then seen else seen ++ [a.category_id])
      seen
    ↔ x ∈ seen ∨ ∃ a ∈ acts, a.category_id = x := by
  induction acts with
  | nil => intro seen x; simp
  | cons a l ih =>
    intro seen x
    have hstep : x ∈ (if a.category_id ∈ seen then seen else seen ++ [a.category_id])
        ↔ x ∈ seen ∨ x = a.category_id := by
      by_cases hm : a.category_id ∈ seen
      · rw [if_pos hm]
        constructor
        · exact Or.inl
        · rintro (h | rfl)
          · exact h
          · exact hm
      · rw [if_neg hm]
        simp
    rw [List.foldl_cons, ih, hstep]
    constructor
    · rintro ((h | rfl) | ⟨b, hb, rfl⟩)
      · exact Or.inl h
      · exact Or.inr ⟨a, List.mem_cons_self a l, rfl⟩
      · exact Or.inr ⟨b, List.mem_cons_of_mem a hb, rfl⟩
    · rintro (h | ⟨b, hb, rfl⟩)
      · exact Or.inl (Or.inl h)
      · rcases List.mem_cons.mp hb with rfl | hb'
        · exact Or.inl (Or.inr rfl)
        · exact Or.inr ⟨b, hb', rfl⟩

lemma groupKeys_nodup (acts : List Activity) : (groupKeys acts).Nodup :=
  groupKeys_aux_nodup acts [] List.nodup_nil

lemma mem_groupKeys (acts : List Activity) (x : Int) :
    x ∈ groupKeys acts ↔ ∃ a ∈ acts, a.category_id = x := by
  rw [groupKeys, groupKeys_aux_mem]
  simp

lemma dictLast_isSome_iff (cats : List Category) (cid : Int) :
    (dictLast cats cid).isSome = true ↔ ∃ c ∈ cats, c.id = cid := by
  rw [dictLast]
  rw [show ((cats.reverse.find? (fun c => c.id == cid)).isSome = true)
      ↔ ∃ c ∈ cats.reverse, (fun c : Category => c.id == cid) c from
    ⟨fun h => List.find?_isSome.mp h, fun h => List.find?_isSome.mpr h⟩]
  simp

lemma filterMap_dict_eq_filter_map (cats : List Category) (keys : List Int) :
    keys.filterMap (fun cid => (dictLast cats cid).map (fun c => c.color))
      = (keys.filter (fun cid => (dictLast cats cid).isSome)).map
          (fun cid => match dictLast cats cid with
            | some c => c.color
            | none => "") := by
  induction keys with
  | nil => rfl
  | cons k ks ih =>
    cases hk : dictLast cats k with
    | none => simp [List.filterMap_cons, List.filter_cons, hk, ih]
    | some c => simp [List.filterMap_cons, List.filter_cons, hk, ih]

lemma mem_getActivities_single (s : Doc) (d : String) (hd : d ≠ "") (a : Activity) :
    a ∈ get_activities (some d) (some d) none s ↔ a ∈ s.activities ∧ a.date = d := by
  rw [getActivities_single_day s d hd, List.mem_filter]
  simp

/-- C6: the indicators of a day cell are exactly one color per category that
both exists and has at least one activity on that date: the contributing
category ids are deduplicated (no id twice), an id contributes iff a
matching category exists and some activity of that day carries it, and the
rendered color list has exactly one entry per contributing id. -/
theorem indicator_colors_spec (s : Doc) (d : String) (hd : d ≠ "") :
    ((groupKeys (get_activities (some d) (some d) none s)).filter
        (fun cid => (dictLast s.categories cid).isSome)).Nodup
    ∧ (∀ cid : Int,
        cid ∈ (groupKeys (get_activities (some d) (some d) none s)).filter
            (fun cid => (dictLast s.categories cid).isSome)
          ↔ ((∃ c ∈ s.categories, c.id = cid)
              ∧ ∃ a ∈ s.activities, a.date = d ∧ a.category_id = cid))
    ∧ indicatorColors s d
        = ((groupKeys (get_activities (some d) (some d) none s)).filter
            (fun cid => (dictLast s.categories cid).isSome)).map
            (fun cid => match dictLast s.categories cid with
              | some c => c.color
              | none => "") := by
  refine ⟨(groupKeys_nodup _).filter _, fun cid => ?_, ?_⟩
  · rw [List.mem_filter, mem_groupKeys, dictLast_isSome_iff]
    constructor
    · rintro ⟨⟨a, ha, rfl⟩, hcat⟩
      obtain ⟨hmem, hdate⟩ := (mem_getActivities_single s d hd a).mp ha
      exact ⟨hcat, a, hmem, hdate, rfl⟩
    · rintro ⟨hcat, a, hmem, hdate, rfl⟩
      exact ⟨⟨a, (mem_getActivities_single s d hd a).mpr ⟨hmem, hdate⟩, rfl⟩, hcat⟩
  · rw [indicatorColors]
    exact filterMap_dict_eq_filter_map s.categories _

/-- Witness for C6 on `demoDoc`: two same-category activities on 2024-03-01
contribute one entry, the second category contributes another, and the
orphan category id 9 contributes none. -/
theorem indicator_colors_spec_witness :
    ("2024-03-01" : String) ≠ ""
    ∧ (((groupKeys (get_activities (some "2024-03-01") (some "2024-03-01") none
            demoDoc)).filter
          (fun cid => (dictLast demoDoc.categories cid).isSome)).Nodup
      ∧ (∀ cid : Int,
          cid ∈ (groupKeys (get_activities (some "2024-03-01") (some "2024-03-01") none
              demoDoc)).filter
              (fun cid => (dictLast demoDoc.categories cid).isSome)
            ↔ ((∃ c ∈ demoDoc.categories, c.id = cid)
                ∧ ∃ a ∈ demoDoc.activities, a.date = "2024-03-01"
                    ∧ a.category_id = cid))
      ∧ indicatorColors demoDoc "2024-03-01"
          = ((groupKeys (get_activities (some "2024-03-01") (some "2024-03-01") none
              demoDoc)).filter
              (fun cid => (dictLast demoDoc.categories cid).isSome)).map
              (fun cid => match dictLast demoDoc.categories cid with
                | some c => c.color
                | none => "")) :=
  ⟨by decide, indicator_colors_spec demoDoc "2024-03-01" (by decide)⟩
